import Mathlib

/-!
Verification development for the `lx` monorepo build helper.

The script under scrutiny (`scripts/build-packages.ts` together with
`build.config.ts` and `packages/utils/src/clone.ts`) is modelled as pure Lean
functions.  The file system is represented by an existence predicate
`String → Bool` plus, where the code calls `readdirSync`, an explicit listing
of a directory's immediate entries.  Paths are plain strings; `path.join` is
modelled as concatenation with a `/` separator and `path.isAbsolute` as
"starts with `/`" (POSIX semantics, no normalisation — none of the verified
properties depend on path normalisation).
-/

namespace LxBuild

/-! String primitives are implemented over the underlying character lists so
that every definition evaluates by kernel reduction (`decide`/`rfl`). -/

/-- `String.prototype.startsWith`. -/
def strStartsWith (s pre : String) : Bool := pre.data.isPrefixOf s.data

/-- `String.prototype.endsWith`. -/
def strEndsWith (s suf : String) : Bool := suf.data.isSuffixOf s.data

/-- `String.prototype.includes` for a single-character needle. -/
def strContainsChar (s : String) (c : Char) : Bool := s.data.contains c

/-- JS `String.prototype.split` with a single-character separator, on
character lists: `split('/')` of `"a/b"` is `["a", "b"]`, of `""` is `[""]`. -/
def splitCharAux (c : Char) : List Char → List (List Char)
  | [] => [[]]
  | x :: xs =>
    match splitCharAux c xs with
    | [] => [[]]
    | ys :: rest => if x = c then [] :: ys :: rest else (x :: ys) :: rest

/-- JS `s.split(c)` for a single-character separator. -/
def jsSplitChar (s : String) (c : Char) : List String :=
  (splitCharAux c s.data).map String.mk

/-- `path.isAbsolute` (POSIX): the path starts with a slash. -/
def isAbsolute (p : String) : Bool := strStartsWith p "/"

/-- `path.join(d, f)` modelled as `d ++ "/" ++ f` (no normalisation). -/
def joinPath (d f : String) : String := d ++ "/" ++ f

/-- `path.resolve(cwd, p)`: absolute paths are kept, relative ones are joined
onto the working directory. -/
def resolvePath (cwd p : String) : String :=
  if isAbsolute p then p else joinPath cwd p

/-- `path.basename`: the final `/`-separated segment of a path. -/
def basenameOf (p : String) : String := (jsSplitChar p '/').getLastD ""

/-! ## The build configuration (`build.config.ts`) -/

/-- The modelled subset of vite's `BuildOptions` pass-through
(`config.vite.build` in `build.config.ts`). -/
structure ViteBuildOpts where
  minify : Option String := none
  sourcemap : Option Bool := none
  reportCompressedSize : Option Bool := none

/-- `config.vite`: user config pass-through for the bundler. -/
structure ViteUserConfig where
  build : Option ViteBuildOpts := none

/-- `config.vue`: options passed to the UI-framework plugin. -/
structure VueOptions where
  isProduction : Option Bool := none

/-- The `BuildConfig` interface of `build.config.ts`. -/
structure BuildConfig where
  formats : List String
  outRoot : String
  entryFiles : List String
  globals : List (String × String)
  external : Option (String → Bool) := none
  vite : Option ViteUserConfig := none
  vue : Option VueOptions := none

/-- The default externalization predicate of `build.config.ts`:
`vue` is externalized, and so is every dependency that does not carry the
`@lx/` scope prefix. -/
def defaultExternal (depName : String) : Bool :=
  if depName = "vue" then true else !(strStartsWith depName "@lx/")

/-- The built-in default `config` object of `build.config.ts`. -/
def defaultConfig : BuildConfig :=
  { formats := ["es", "cjs", "umd"]
    outRoot := "dist"
    entryFiles := ["index.ts", "src/index.ts", "src/index.tsx"]
    globals := [("vue", "Vue"), ("@vueuse/core", "VueUse")]
    external := some defaultExternal
    vite := some { build := some { minify := some "esbuild", sourcemap := some true,
                                   reportCompressedSize := some false } }
    vue := some { isProduction := some true } }

/-- `config.external?.(d)`: optional-call semantics — an absent predicate
yields `undefined`, which is falsy at the call site. -/
def extApply : Option (String → Bool) → String → Bool
  | some p, d => p d
  | none, _ => false

/-! ## Package manifests and the external set (`buildPackage`) -/

/-- The fields of a `package.json` manifest that `buildPackage` reads.
Dependency records are modelled by their key lists (`Object.keys`). -/
structure PackageJson where
  name : Option String := none
  module : Option String := none
  main : Option String := none
  dependencies : List String := []
  peerDependencies : List String := []

/-- `pkgJson.name || path.basename(pkgDir)` — an absent or empty (falsy)
name falls back to the directory basename. -/
def pkgNameOf (pkgDir : String) (pj : PackageJson) : String :=
  match pj.name with
  | some n => if n = "" then basenameOf pkgDir else n
  | none => basenameOf pkgDir

/-- `Set.add`: insertion-ordered, deduplicating append. -/
def setAdd (s : List String) (d : String) : List String :=
  if d ∈ s then s else s ++ [d]

/-- The externals collection of `buildPackage`: every peer-dependency key is
added, then every dependency key for which `config.external?.(d)` is truthy. -/
def computeExternals (peerDependencies dependencies : List String)
    (external : Option (String → Bool)) : List String :=
  dependencies.foldl (fun acc d => if extApply external d then setAdd acc d else acc)
    (peerDependencies.foldl setAdd [])

/-- The external set `buildPackage` computes for a manifest under a config. -/
def externalsOf (pj : PackageJson) (config : BuildConfig) : List String :=
  computeExternals pj.peerDependencies pj.dependencies config.external

/-! ## Entry resolution (`buildPackage`) -/

/-- Resolve one candidate: absolute candidates are kept, relative ones are
joined onto the package directory. -/
def resolveCand (pkgDir c : String) : String :=
  if isAbsolute c then c else joinPath pkgDir c

/-- `tryEntryCandidates = [pkgJson.module, pkgJson.main, ...config.entryFiles]`. -/
def tryEntryCandidates (module main : Option String) (entryFiles : List String) :
    List (Option String) :=
  module :: main :: entryFiles.map some

/-- The candidate loop of `buildPackage`: skip falsy candidates (`undefined`
or the empty string), resolve each remaining one against the package
directory and return the first resolved path that exists. -/
def findFirstEntry (fs : String → Bool) (pkgDir : String) :
    List (Option String) → Option String
  | [] => none
  | none :: rest => findFirstEntry fs pkgDir rest
  | some c :: rest =>
    if c = "" then findFirstEntry fs pkgDir rest
    else
      let p := resolveCand pkgDir c
      if fs p then some p else findFirstEntry fs pkgDir rest

/-- The filenames accepted by the fallback regex
`/^index\.(ts|js|mjs|cjs|tsx)$/`. -/
def indexNames : List String :=
  ["index.ts", "index.js", "index.mjs", "index.cjs", "index.tsx"]

/-- Whether a directory entry matches the fallback index regex. -/
def isIndexFile (f : String) : Bool := indexNames.contains f

/-- Entry search of `buildPackage`: the candidate loop, then the
`readdirSync` fallback looking for an `index.*` file among the package
directory's immediate entries. -/
def findEntry (fs : String → Bool) (listing : List String) (pkgDir : String)
    (module main : Option String) (entryFiles : List String) : Option String :=
  match findFirstEntry fs pkgDir (tryEntryCandidates module main entryFiles) with
  | some e => some e
  | none => (listing.find? isIndexFile).map (joinPath pkgDir)

/-- The entry-not-found message thrown by `buildPackage`. -/
def entryErrorMsg (pkgName pkgDir : String) (entryFiles : List String) : String :=
  "Cannot find entry for package " ++ pkgName ++
    (" in " ++ pkgDir ++
      (". Please set \"main\" or \"module\" in package.json or add one of: " ++
        String.intercalate ", " entryFiles))

/-- Entry resolution of `buildPackage` as a fallible computation. -/
def resolvePackageEntry (fs : String → Bool) (listing : List String)
    (pkgDir pkgName : String) (module main : Option String)
    (entryFiles : List String) : Except String String :=
  match findEntry fs listing pkgDir module main entryFiles with
  | some e => Except.ok e
  | none => Except.error (entryErrorMsg pkgName pkgDir entryFiles)

/-! ## Single-component entry resolution (`buildSingleComponent`) -/

/-- The entry-not-found message thrown by `buildSingleComponent`. -/
def componentEntryMsg (componentName compDir : String) : String :=
  "Cannot find entry for component " ++ componentName ++ (" in " ++ compDir)

/-- Entry search of `buildSingleComponent`: try `<compDir>/index.ts`; failing
that, look for a name ending in `.vue` among the component directory's
immediate entries (`readdirSync(compDir)`) and point at that name under the
`src` subdirectory; failing that, try `<compDir>/src/index.ts`; if the chosen
path still does not exist, fail naming the component. -/
def resolveComponentEntry (fs : String → Bool) (listing : List String)
    (compDir componentName : String) : Except String String :=
  let entry0 := joinPath compDir "index.ts"
  let entry1 :=
    if fs entry0 then entry0
    else
      match listing.find? (fun f => strEndsWith f ".vue") with
      | some vueFile => joinPath (joinPath compDir "src") vueFile
      | none => entry0
  let entry2 :=
    if fs entry1 then entry1
    else
      let alt := joinPath (joinPath compDir "src") "index.ts"
      if fs alt then alt else entry1
  if fs entry2 then Except.ok entry2
  else Except.error (componentEntryMsg componentName compDir)

/-- The claimed single-component search order, stated from the specification's
words for comparison with `resolveComponentEntry`: `index.ts` in the component
directory; failing that, a file whose name ends in `.vue` under the
component's `src` subdirectory (`srcListing` lists that subdirectory's
entries); failing that, `src/index.ts`; otherwise fail naming the component. -/
def claimComponentEntry (fs : String → Bool) (srcListing : List String)
    (compDir componentName : String) : Except String String :=
  let c1 := joinPath compDir "index.ts"
  if fs c1 then Except.ok c1
  else
    match srcListing.find? (fun f => strEndsWith f ".vue") with
    | some vueFile => Except.ok (joinPath (joinPath compDir "src") vueFile)
    | none =>
      let c3 := joinPath (joinPath compDir "src") "index.ts"
      if fs c3 then Except.ok c3
      else Except.error (componentEntryMsg componentName compDir)

/-! ## Config loading (`loadConfig`) -/

/-- A user config module's default export: any subset of the top-level
`BuildConfig` keys (shallow override, key present means override wins). -/
structure BuildConfigOverride where
  formats : Option (List String) := none
  outRoot : Option String := none
  entryFiles : Option (List String) := none
  globals : Option (List (String × String)) := none
  external : Option (Option (String → Bool)) := none
  vite : Option (Option ViteUserConfig) := none
  vue : Option (Option VueOptions) := none

/-- The object spread `{ ...defaultConfig, ...userConfig.default }`:
per-top-level-key shallow merge, override wins where present. -/
def mergeConfig (base : BuildConfig) (ov : BuildConfigOverride) : BuildConfig :=
  { formats := ov.formats.getD base.formats
    outRoot := ov.outRoot.getD base.outRoot
    entryFiles := ov.entryFiles.getD base.entryFiles
    globals := ov.globals.getD base.globals
    external := ov.external.getD base.external
    vite := ov.vite.getD base.vite
    vue := ov.vue.getD base.vue }

/-- `loadConfig`: importing the override module is modelled by
`importModule`, where `none` stands for a load/execution failure (a thrown
error).  The result pairs the error log with the outcome; a missing file is a
thrown (uncaught) error, an import failure is logged and recovered. -/
def loadConfig (configPath : Option String) (cwd : String)
    (fsExists : String → Bool)
    (importModule : String → Option BuildConfigOverride) :
    List String × Except String BuildConfig :=
  match configPath with
  | none => ([], Except.ok defaultConfig)
  | some cp =>
    let absPath := resolvePath cwd cp
    if !fsExists absPath then
      ([], Except.error ("Config file not found: " ++ absPath))
    else
      match importModule absPath with
      | some userDefault => ([], Except.ok (mergeConfig defaultConfig userDefault))
      | none => (["Failed to load config"], Except.ok defaultConfig)

/-! ## Output naming and per-format build options (`buildPackage`) -/

/-- Replace the first occurrence of the character `c` in a character list by
the replacement `r` (JavaScript `String.prototype.replace` with a string
pattern rewrites only the first occurrence). -/
def replaceFirstCharAux (c : Char) (r : List Char) : List Char → List Char
  | [] => []
  | x :: xs => if x = c then r ++ xs else x :: replaceFirstCharAux c r xs

/-- `s.replace(c, r)` for a single-character pattern: first occurrence only. -/
def replaceFirstChar (s : String) (c : Char) (r : String) : String :=
  ⟨replaceFirstCharAux c r.data s.data⟩

/-- `pkgName.includes('/') ? pkgName.split('/').pop()! : pkgName`. -/
def shortNameOf (pkgName : String) : String :=
  if strContainsChar pkgName '/' then (jsSplitChar pkgName '/').getLastD "" else pkgName

/-- `shortName.replace('@', '').replace('/', '-')` — the output directory's
basename. -/
def normalizeOutName (shortName : String) : String :=
  replaceFirstChar (replaceFirstChar shortName '@' "") '/' "-"

/-- The specification's wording for the output directory basename: the short
name with every `@` scope marker and every `/` separator removed. -/
def stripScopeAndSep (s : String) : String :=
  ⟨s.data.filter (fun x => !(x == '@' || x == '/'))⟩

/-- The library-mode options `buildPackage` assembles (`lib` field). -/
structure LibOptions where
  entry : String
  name : String
  formats : List String
  fileNameFor : String → String

/-- The computed subset of the per-format vite build options: library-mode
options, the external array, the UMD globals and the output directory.
(The base `config.vite.build` keys are spread in unchanged and are not
re-modelled here.) -/
structure AssembledBuildOptions where
  lib : LibOptions
  external : List String
  outputGlobals : List (String × String)
  outDir : String

/-- Per-format build-option assembly of `buildPackage`: `shortName` is
derived from the package name, `outDir` joins the output root with the
normalised short name, `lib.formats` holds the single requested format and
the output file name is templated `<shortName>.<format>.js`. -/
def assembleBuildOptions (config : BuildConfig) (entry pkgName outRoot : String)
    (externals : List String) (format : String) : AssembledBuildOptions :=
  let shortName := shortNameOf pkgName
  { lib :=
      { entry := entry
        name := shortName
        formats := [format]
        fileNameFor := fun f => shortName ++ ("." ++ f ++ ".js") }
    external := externals
    outputGlobals := config.globals
    outDir := joinPath outRoot (normalizeOutName shortName) }

/-! ## Sequential build loops (`buildPackage` formats, `main` packages) -/

/-- A sequential `for … await` loop over build steps: each step runs only
after every earlier step succeeded, and the first failure aborts the loop and
propagates.  Returns the list of steps actually invoked and the outcome. -/
def runSeq (step : α → Except String Unit) : List α → List α × Except String Unit
  | [] => ([], Except.ok ())
  | x :: rest =>
    match step x with
    | Except.ok _ =>
      let r := runSeq step rest
      (x :: r.1, r.2)
    | Except.error e => ([x], Except.error e)

/-- The format loop of `buildPackage` with its `catch` block: on failure the
log line `Build failed for <pkgName>` is emitted and the error is rethrown.
Returns (formats invoked, log lines, outcome). -/
def buildPackageFormats (pkgName : String) (builder : String → Except String Unit)
    (formats : List String) : List String × List String × Except String Unit :=
  let r := runSeq builder formats
  match r.2 with
  | Except.ok _ => (r.1, [], Except.ok ())
  | Except.error e => (r.1, ["Build failed for " ++ pkgName], Except.error e)

/-- The all-packages loop of `main`: packages are built sequentially and the
first failure stops the run.  Returns the packages attempted and the
outcome. -/
def buildAllPackages (buildPkg : String → Except String Unit)
    (pkgDirs : List String) : List String × Except String Unit :=
  runSeq buildPkg pkgDirs

/-- `main().catch(err => { console.error(err); process.exit(1) })`:
the process exit status derived from the run's outcome. -/
def mainExitCode : Except String Unit → Nat
  | Except.ok _ => 0
  | Except.error _ => 1

end LxBuild

namespace LxUtils

/-!
## The deep-clone utility (`packages/utils/src/clone.ts`)

JavaScript values are modelled by a mutual inductive: primitives
(`null`/`undefined`/booleans/numbers/strings), `Date` objects, arrays and
plain objects.  Every heap-allocated node (`Date`, array, object) carries an
identity `id : Nat` standing for its reference; `deepClone` threads a fresh-id
counter and stamps every node it allocates with a fresh identity, which is how
"returns a new value sharing no references with the input" is made formal. -/

mutual
inductive JSVal where
  | vnull : JSVal
  | vundef : JSVal
  | vbool : Bool → JSVal
  | vnum : Int → JSVal
  | vstr : String → JSVal
  | vdate : Nat → Int → JSVal
  | varr : Nat → JSList → JSVal
  | vobj : Nat → JSFields → JSVal
deriving DecidableEq

inductive JSList where
  | nil : JSList
  | cons : JSVal → JSList → JSList
deriving DecidableEq

inductive JSFields where
  | nil : JSFields
  | cons : String → JSVal → JSFields → JSFields
deriving DecidableEq
end

/-- `obj === null || typeof obj !== 'object'`: the inputs `deepClone` returns
unchanged. -/
def JSVal.isPrimitive : JSVal → Bool
  | .vnull => true
  | .vundef => true
  | .vbool _ => true
  | .vnum _ => true
  | .vstr _ => true
  | _ => false

mutual
/-- `deepClone`, threading a fresh-identity counter: primitives are returned
unchanged; a `Date` becomes a freshly allocated `Date` with the same
timestamp; arrays copy every element in index order into a fresh array;
objects copy every own enumerable entry into a fresh object. -/
def deepClone : JSVal → Nat → JSVal × Nat
  | .vnull, n => (.vnull, n)
  | .vundef, n => (.vundef, n)
  | .vbool b, n => (.vbool b, n)
  | .vnum x, n => (.vnum x, n)
  | .vstr s, n => (.vstr s, n)
  | .vdate _ t, n => (.vdate n t, n + 1)
  | .varr _ es, n =>
    let r := deepCloneList es (n + 1)
    (.varr n r.1, r.2)
  | .vobj _ fs, n =>
    let r := deepCloneFields fs (n + 1)
    (.vobj n r.1, r.2)

/-- Element-wise clone of an array's contents (the indexed `for` loop). -/
def deepCloneList : JSList → Nat → JSList × Nat
  | .nil, n => (.nil, n)
  | .cons v vs, n =>
    let rv := deepClone v n
    let rvs := deepCloneList vs rv.2
    (.cons rv.1 rvs.1, rvs.2)

/-- Entry-wise clone of an object's own enumerable entries (the `for…in`
loop guarded by `hasOwnProperty`). -/
def deepCloneFields : JSFields → Nat → JSFields × Nat
  | .nil, n => (.nil, n)
  | .cons k v fs, n =>
    let rv := deepClone v n
    let rfs := deepCloneFields fs rv.2
    (.cons k rv.1 rfs.1, rfs.2)
end

mutual
/-- Erase reference identities, keeping pure structure: two values are
structurally equal ("deep-equal") exactly when their erasures coincide. -/
def eraseIds : JSVal → JSVal
  | .vnull => .vnull
  | .vundef => .vundef
  | .vbool b => .vbool b
  | .vnum x => .vnum x
  | .vstr s => .vstr s
  | .vdate _ t => .vdate 0 t
  | .varr _ es => .varr 0 (eraseIdsList es)
  | .vobj _ fs => .vobj 0 (eraseIdsFields fs)

/-- `eraseIds` on array contents. -/
def eraseIdsList : JSList → JSList
  | .nil => .nil
  | .cons v vs => .cons (eraseIds v) (eraseIdsList vs)

/-- `eraseIds` on object entries. -/
def eraseIdsFields : JSFields → JSFields
  | .nil => .nil
  | .cons k v fs => .cons k (eraseIds v) (eraseIdsFields fs)
end

mutual
/-- All reference identities occurring in a value. -/
def idsOf : JSVal → List Nat
  | .vnull => []
  | .vundef => []
  | .vbool _ => []
  | .vnum _ => []
  | .vstr _ => []
  | .vdate i _ => [i]
  | .varr i es => i :: idsOfList es
  | .vobj i fs => i :: idsOfFields fs

/-- Identities occurring in an array's contents. -/
def idsOfList : JSList → List Nat
  | .nil => []
  | .cons v vs => idsOf v ++ idsOfList vs

/-- Identities occurring in an object's entries. -/
def idsOfFields : JSFields → List Nat
  | .nil => []
  | .cons _ v fs => idsOf v ++ idsOfFields fs
end

end LxUtils

/-! # Theorems -/

namespace LxBuild

theorem mem_setAdd {s : List String} {d x : String} :
    x ∈ setAdd s d ↔ x ∈ s ∨ x = d := by
  unfold setAdd
  by_cases h : d ∈ s
  · rw [if_pos h]
    constructor
    · exact Or.inl
    · rintro (hx | rfl)
      · exact hx
      · exact h
  · rw [if_neg h]
    simp

theorem mem_foldl_setAdd (l : List String) : ∀ (s : List String) (x : String),
    x ∈ l.foldl setAdd s ↔ x ∈ s ∨ x ∈ l := by
  induction l with
  | nil => intro s x; simp
  | cons a l ih =>
    intro s x
    rw [List.foldl_cons, ih, mem_setAdd, List.mem_cons]
    tauto

theorem mem_foldl_guardAdd (p : String → Bool) (l : List String) :
    ∀ (s : List String) (x : String),
    x ∈ l.foldl (fun acc d => if p d then setAdd acc d else acc) s ↔
      x ∈ s ∨ (x ∈ l ∧ p x = true) := by
  induction l with
  | nil => intro s x; simp
  | cons a l ih =>
    intro s x
    rw [List.foldl_cons, ih]
    by_cases hpa : p a = true
    · rw [if_pos hpa, mem_setAdd, List.mem_cons]
      constructor
      · rintro ((hx | rfl) | ⟨hl, hp⟩)
        · exact Or.inl hx
        · exact Or.inr ⟨Or.inl rfl, hpa⟩
        · exact Or.inr ⟨Or.inr hl, hp⟩
      · rintro (hx | ⟨(rfl | hl), hp⟩)
        · exact Or.inl (Or.inl hx)
        · exact Or.inl (Or.inr rfl)
        · exact Or.inr ⟨hl, hp⟩
    · rw [if_neg hpa, List.mem_cons]
      constructor
      · rintro (hx | ⟨hl, hp⟩)
        · exact Or.inl hx
        · exact Or.inr ⟨Or.inr hl, hp⟩
      · rintro (hx | ⟨(rfl | hl), hp⟩)
        · exact Or.inl hx
        · exact absurd hp hpa
        · exact Or.inr ⟨hl, hp⟩

theorem mem_computeExternals (peers deps : List String)
    (ext : Option (String → Bool)) (d : String) :
    d ∈ computeExternals peers deps ext ↔
      d ∈ peers ∨ (d ∈ deps ∧ extApply ext d = true) := by
  unfold computeExternals
  rw [mem_foldl_guardAdd, mem_foldl_setAdd]
  simp

/-- C1: for every package descriptor, the external set computed by
`buildPackage` equals, as a set, the peer-dependency names unioned with the
dependency names on which the configured externalization predicate returns
true; and every peer-dependency name is a member regardless of the
predicate's value on it. -/
theorem c1_external_set (pj : PackageJson) (config : BuildConfig) (d : String) :
    (d ∈ externalsOf pj config ↔
      d ∈ pj.peerDependencies ∨
        (d ∈ pj.dependencies ∧ extApply config.external d = true))
    ∧ (d ∈ pj.peerDependencies → d ∈ externalsOf pj config) := by
  constructor
  · exact mem_computeExternals _ _ _ _
  · intro h
    exact (mem_computeExternals _ _ _ _).mpr (Or.inl h)

/-- C1 witness: `vue` is a peer dependency of the demo manifest, so it lands
in the external set under the default config. -/
theorem c1_witness :
    "vue" ∈ externalsOf
      { name := some "@lx/components", dependencies := ["@lx/utils", "lodash"],
        peerDependencies := ["vue"] } defaultConfig :=
  (c1_external_set
    { name := some "@lx/components", dependencies := ["@lx/utils", "lodash"],
      peerDependencies := ["vue"] } defaultConfig "vue").2 (by decide)

/-- C2 counterexample: a package whose declared name `foo` also appears among
its peer dependencies gets its own name into the external set — `buildPackage`
performs no self-exclusion, contradicting the claim. -/
theorem c2_counterexample :
    pkgNameOf "/repo/packages/foo" { name := some "foo", peerDependencies := ["foo"] } ∈
      externalsOf { name := some "foo", peerDependencies := ["foo"] } defaultConfig := by
  decide

/-- C2 amended: the external set contains the package's own name exactly when
that name occurs among the peer dependencies or among the predicate-selected
regular dependencies; no self-exclusion happens. -/
theorem c2_amended_self_membership (pkgDir : String) (pj : PackageJson)
    (config : BuildConfig) :
    pkgNameOf pkgDir pj ∈ externalsOf pj config ↔
      pkgNameOf pkgDir pj ∈ pj.peerDependencies ∨
        (pkgNameOf pkgDir pj ∈ pj.dependencies ∧
          extApply config.external (pkgNameOf pkgDir pj) = true) :=
  mem_computeExternals _ _ _ _

/-- C6: the built-in default config's external predicate returns true on
`vue`, true on every name that does not start with `@lx/`, and false on every
name that does start with `@lx/`. -/
theorem c6_default_external_predicate (d : String) :
    extApply defaultConfig.external "vue" = true
    ∧ (strStartsWith d "@lx/" = false → extApply defaultConfig.external d = true)
    ∧ (strStartsWith d "@lx/" = true → extApply defaultConfig.external d = false) := by
  refine ⟨by decide, ?_, ?_⟩
  · intro h
    by_cases hd : d = "vue"
    · simp [defaultConfig, extApply, defaultExternal, hd]
    · simp [defaultConfig, extApply, defaultExternal, hd, h]
  · intro h
    have hd : d ≠ "vue" := by
      rintro rfl
      exact absurd h (by decide)
    simp [defaultConfig, extApply, defaultExternal, hd, h]

theorem findFirstEntry_eq_find (fs : String → Bool) (pkgDir : String)
    (cands : List (Option String)) :
    findFirstEntry fs pkgDir cands =
      (((cands.filterMap id).filter (fun c => c != "")).map (resolveCand pkgDir)).find? fs := by
  induction cands with
  | nil => rfl
  | cons c rest ih =>
    cases c with
    | none => simpa [findFirstEntry] using ih
    | some s =>
      by_cases hs : s = ""
      · subst hs
        simpa [findFirstEntry] using ih
      · by_cases hfs : fs (resolveCand pkgDir s) = true
        · simp [findFirstEntry, hs, hfs, List.find?_cons]
        · simp [findFirstEntry, hs, hfs, List.find?_cons, ih]

theorem findFirstEntry_eq_none (fs : String → Bool) (pkgDir : String)
    (cands : List (Option String))
    (h : ∀ c, some c ∈ cands → c ≠ "" → fs (resolveCand pkgDir c) = false) :
    findFirstEntry fs pkgDir cands = none := by
  induction cands with
  | nil => rfl
  | cons c rest ih =>
    have hrest : findFirstEntry fs pkgDir rest = none :=
      ih fun c hc hne => h c (List.mem_cons_of_mem _ hc) hne
    cases c with
    | none => simpa [findFirstEntry] using hrest
    | some s =>
      by_cases hs : s = ""
      · subst hs
        simpa [findFirstEntry] using hrest
      · have hfs := h s (List.mem_cons_self _ _) hs
        simp [findFirstEntry, hs, hfs, hrest]

/-- C3: the `buildPackage` candidate loop returns the first existing resolved
candidate, taking the manifest `module` field, then `main`, then each
configured entry file in list order, each joined onto the package directory
unless absolute; and when `module` names an existing (non-falsy) file, that
exact resolved path is returned with no later candidate or fallback
consulted. -/
theorem c3_entry_candidate_order (fs : String → Bool) (pkgDir : String)
    (module main : Option String) (entryFiles : List String) :
    findFirstEntry fs pkgDir (tryEntryCandidates module main entryFiles) =
      ((((tryEntryCandidates module main entryFiles).filterMap id).filter
          (fun c => c != "")).map (resolveCand pkgDir)).find? fs
    ∧ (∀ m, module = some m → m ≠ "" → fs (resolveCand pkgDir m) = true →
        ∀ listing, findEntry fs listing pkgDir module main entryFiles =
          some (resolveCand pkgDir m)) := by
  constructor
  · exact findFirstEntry_eq_find fs pkgDir _
  · rintro m rfl hm hfs listing
    simp [findEntry, tryEntryCandidates, findFirstEntry, hm, hfs]

/-- C3 witness: with an existing `module` target, `findEntry` returns exactly
its resolved path. -/
theorem c3_witness :
    findEntry (fun p => p == "/pkg/lib.js") [] "/pkg" (some "lib.js")
        (some "main.js") defaultConfig.entryFiles = some (resolveCand "/pkg" "lib.js") :=
  (c3_entry_candidate_order (fun p => p == "/pkg/lib.js") "/pkg" (some "lib.js")
      (some "main.js") defaultConfig.entryFiles).2 "lib.js" rfl (by decide) (by decide) []

/-- C5: when neither manifest hint nor any configured candidate resolves to an
existing file and the directory listing holds no recognized `index.*` file,
`buildPackage`'s entry resolution fails with the entry-not-found message,
which names the package and lists the attempted candidate filenames. -/
theorem c5_entry_not_found (fs : String → Bool) (listing : List String)
    (pkgDir pkgName : String) (module main : Option String) (entryFiles : List String)
    (hmod : ∀ c, module = some c → c ≠ "" → fs (resolveCand pkgDir c) = false)
    (hmain : ∀ c, main = some c → c ≠ "" → fs (resolveCand pkgDir c) = false)
    (hfiles : ∀ c ∈ entryFiles, c ≠ "" → fs (resolveCand pkgDir c) = false)
    (hidx : ∀ f ∈ listing, isIndexFile f = false) :
    resolvePackageEntry fs listing pkgDir pkgName module main entryFiles =
      Except.error (entryErrorMsg pkgName pkgDir entryFiles)
    ∧ (∃ pre suf, (entryErrorMsg pkgName pkgDir entryFiles).data =
        pre ++ pkgName.data ++ suf)
    ∧ (∃ pre, (entryErrorMsg pkgName pkgDir entryFiles).data =
        pre ++ (String.intercalate ", " entryFiles).data) := by
  refine ⟨?_, ?_, ?_⟩
  · have h1 : findFirstEntry fs pkgDir (tryEntryCandidates module main entryFiles) = none := by
      apply findFirstEntry_eq_none
      intro c hc hne
      simp only [tryEntryCandidates, List.mem_cons] at hc
      rcases hc with hc | hc | hc
      · exact hmod c hc.symm hne
      · exact hmain c hc.symm hne
      · have : c ∈ entryFiles := by simpa using hc
        exact hfiles c this hne
    have h2 : listing.find? isIndexFile = none := by
      rw [List.find?_eq_none]
      intro f hf
      simp [hidx f hf]
    simp [resolvePackageEntry, findEntry, h1, h2]
  · refine ⟨"Cannot find entry for package ".data,
      (" in " ++ pkgDir ++
        (". Please set \"main\" or \"module\" in package.json or add one of: " ++
          String.intercalate ", " entryFiles)).data, ?_⟩
    simp [entryErrorMsg, String.data_append, List.append_assoc]
  · refine ⟨("Cannot find entry for package " ++ pkgName ++ (" in " ++ pkgDir ++
      ". Please set \"main\" or \"module\" in package.json or add one of: ")).data, ?_⟩
    simp [entryErrorMsg, String.data_append, List.append_assoc]

/-- C5 witness: an empty file system and a listing without `index.*` yield the
entry-not-found error for the default candidate list. -/
theorem c5_witness :
    resolvePackageEntry (fun _ => false) ["README.md"] "/repo/packages/demo" "demo"
        none (some "lib/main.js") defaultConfig.entryFiles =
      Except.error (entryErrorMsg "demo" "/repo/packages/demo" defaultConfig.entryFiles) :=
  (c5_entry_not_found (fun _ => false) ["README.md"] "/repo/packages/demo" "demo"
      none (some "lib/main.js") defaultConfig.entryFiles
      (by simp) (fun c _ _ => rfl) (fun c _ _ => rfl) (by decide)).1

/-- C4 counterexample: the component directory holds only `src` (no immediate
`.vue` file and no `index.ts`), while `src/Button.vue` and `src/index.ts` both
exist.  The claimed order would pick the `.vue` file under `src`
(`claimComponentEntry`), but the code scans only the component directory's
immediate entries for a `.vue` name and therefore falls through to
`src/index.ts`. -/
theorem c4_counterexample :
    claimComponentEntry
        (fun p => p == "/c/btn/src/Button.vue" || p == "/c/btn/src/index.ts")
        ["Button.vue", "index.ts"] "/c/btn" "btn" =
      Except.ok "/c/btn/src/Button.vue"
    ∧ resolveComponentEntry
        (fun p => p == "/c/btn/src/Button.vue" || p == "/c/btn/src/index.ts")
        ["src"] "/c/btn" "btn" =
      Except.ok "/c/btn/src/index.ts" :=
  ⟨rfl, rfl⟩

/-- C4 amended: single-component entry resolution tries `index.ts` in the
component directory; failing that, it takes the first name ending in `.vue`
from the component directory's immediate file listing (not the `src`
subdirectory's) and uses that name joined under `src` when that path exists;
failing that, `src/index.ts`; and when the chosen path does not exist it fails
with an error naming the component. -/
theorem c4_component_entry_order (fs : String → Bool) (listing : List String)
    (compDir name : String) :
    (fs (joinPath compDir "index.ts") = true →
      resolveComponentEntry fs listing compDir name =
        Except.ok (joinPath compDir "index.ts"))
    ∧ (∀ v, fs (joinPath compDir "index.ts") = false →
        listing.find? (fun f => strEndsWith f ".vue") = some v →
        fs (joinPath (joinPath compDir "src") v) = true →
        resolveComponentEntry fs listing compDir name =
          Except.ok (joinPath (joinPath compDir "src") v))
    ∧ (fs (joinPath compDir "index.ts") = false →
        listing.find? (fun f => strEndsWith f ".vue") = none →
        fs (joinPath (joinPath compDir "src") "index.ts") = true →
        resolveComponentEntry fs listing compDir name =
          Except.ok (joinPath (joinPath compDir "src") "index.ts"))
    ∧ (∀ v, fs (joinPath compDir "index.ts") = false →
        listing.find? (fun f => strEndsWith f ".vue") = some v →
        fs (joinPath (joinPath compDir "src") v) = false →
        fs (joinPath (joinPath compDir "src") "index.ts") = true →
        resolveComponentEntry fs listing compDir name =
          Except.ok (joinPath (joinPath compDir "src") "index.ts"))
    ∧ (fs (joinPath compDir "index.ts") = false →
        listing.find? (fun f => strEndsWith f ".vue") = none →
        fs (joinPath (joinPath compDir "src") "index.ts") = false →
        resolveComponentEntry fs listing compDir name =
          Except.error (componentEntryMsg name compDir))
    ∧ (∀ v, fs (joinPath compDir "index.ts") = false →
        listing.find? (fun f => strEndsWith f ".vue") = some v →
        fs (joinPath (joinPath compDir "src") v) = false →
        fs (joinPath (joinPath compDir "src") "index.ts") = false →
        resolveComponentEntry fs listing compDir name =
          Except.error (componentEntryMsg name compDir)) := by
  refine ⟨?_, ?_, ?_, ?_, ?_, ?_⟩
  · intro h1
    simp [resolveComponentEntry, h1]
  · intro v h1 h2 h3
    simp [resolveComponentEntry, h1, h2, h3]
  · intro h1 h2 h3
    simp [resolveComponentEntry, h1, h2, h3]
  · intro v h1 h2 h3 h4
    simp [resolveComponentEntry, h1, h2, h3, h4]
  · intro h1 h2 h3
    simp [resolveComponentEntry, h1, h2, h3]
  · intro v h1 h2 h3 h4
    simp [resolveComponentEntry, h1, h2, h3, h4]

/-- C4 witness: an immediate `Tag.vue` listing entry resolves to
`src/Tag.vue` when that path exists and `index.ts` does not. -/
theorem c4_witness :
    resolveComponentEntry (fun p => p == "/c/tag/src/Tag.vue") ["Tag.vue"]
        "/c/tag" "tag" = Except.ok (joinPath (joinPath "/c/tag" "src") "Tag.vue") :=
  (c4_component_entry_order (fun p => p == "/c/tag/src/Tag.vue") ["Tag.vue"]
      "/c/tag" "tag").2.1 "Tag.vue" (by decide) (by decide) (by decide)

/-- C7: `loadConfig` without a path yields the built-in default; with a path
to a file that does not exist it throws the config-not-found error; and when
importing the module at an existing path fails, it logs the failure and falls
back to the built-in default. -/
theorem c7_load_config (cwd p : String) (fs : String → Bool)
    (im : String → Option BuildConfigOverride) :
    loadConfig none cwd fs im = ([], Except.ok defaultConfig)
    ∧ (fs (resolvePath cwd p) = false →
        loadConfig (some p) cwd fs im =
          ([], Except.error ("Config file not found: " ++ resolvePath cwd p)))
    ∧ (fs (resolvePath cwd p) = true → im (resolvePath cwd p) = none →
        loadConfig (some p) cwd fs im =
          (["Failed to load config"], Except.ok defaultConfig)) := by
  refine ⟨rfl, ?_, ?_⟩
  · intro h
    simp [loadConfig, h]
  · intro h1 h2
    simp [loadConfig, h1, h2]

/-- C7 witness: a missing override file throws; a present but failing
override module falls back to the default with the failure logged. -/
theorem c7_witness :
    loadConfig (some "build.user.ts") "/work" (fun _ => false) (fun _ => none) =
      ([], Except.error ("Config file not found: " ++ resolvePath "/work" "build.user.ts"))
    ∧ loadConfig (some "build.user.ts") "/work" (fun _ => true) (fun _ => none) =
        (["Failed to load config"], Except.ok defaultConfig) :=
  ⟨(c7_load_config "/work" "build.user.ts" (fun _ => false) (fun _ => none)).2.1 rfl,
   (c7_load_config "/work" "build.user.ts" (fun _ => true) (fun _ => none)).2.2 rfl rfl⟩

theorem runSeq_append_ok {α : Type} (step : α → Except String Unit) (pre rest : List α)
    (h : ∀ x ∈ pre, step x = Except.ok ()) :
    runSeq step (pre ++ rest) = (pre ++ (runSeq step rest).1, (runSeq step rest).2) := by
  induction pre with
  | nil => simp
  | cons a pre ih =>
    have ha : step a = Except.ok () := h a (List.mem_cons_self _ _)
    have ih2 := ih fun x hx => h x (List.mem_cons_of_mem _ hx)
    simp [runSeq, ha, ih2]

/-- C8: formats run sequentially and the first failing format aborts the rest
of that package's formats, emits the `Build failed for <pkg>` log line and
propagates the error; in an all-packages run the first failing package stops
the run and the process exits non-zero. -/
theorem c8_sequential_fail_fast :
    (∀ (builder : String → Except String Unit) (pkgName : String)
        (pre post : List String) (f e : String),
      (∀ g ∈ pre, builder g = Except.ok ()) → builder f = Except.error e →
        buildPackageFormats pkgName builder (pre ++ f :: post) =
          (pre ++ [f], ["Build failed for " ++ pkgName], Except.error e))
    ∧ (∀ (buildPkg : String → Except String Unit) (qpre qpost : List String) (q e : String),
      (∀ r ∈ qpre, buildPkg r = Except.ok ()) → buildPkg q = Except.error e →
        buildAllPackages buildPkg (qpre ++ q :: qpost) = (qpre ++ [q], Except.error e)
        ∧ mainExitCode (buildAllPackages buildPkg (qpre ++ q :: qpost)).2 = 1) := by
  constructor
  · intro builder pkgName pre post f e hpre hf
    have h1 := runSeq_append_ok builder pre (f :: post) hpre
    have h2 : runSeq builder (f :: post) = ([f], Except.error e) := by
      simp [runSeq, hf]
    simp [buildPackageFormats, h1, h2]
  · intro buildPkg qpre qpost q e hpre hq
    have h1 := runSeq_append_ok buildPkg qpre (q :: qpost) hpre
    have h2 : runSeq buildPkg (q :: qpost) = ([q], Except.error e) := by
      simp [runSeq, hq]
    constructor
    · simp [buildAllPackages, h1, h2]
    · simp [buildAllPackages, mainExitCode, h1, h2]

/-- C8 witness: a builder failing on `umd` aborts after `es`, `cjs`, `umd`
with the package-named log line, and a failing middle package stops the
all-packages run with exit status 1. -/
theorem c8_witness :
    buildPackageFormats "@lx/components"
        (fun f => if f == "umd" then Except.error "boom" else Except.ok ())
        (["es", "cjs"] ++ "umd" :: []) =
      (["es", "cjs"] ++ ["umd"], ["Build failed for @lx/components"], Except.error "boom")
    ∧ buildAllPackages (fun d => if d == "/p/bad" then Except.error "x" else Except.ok ())
        (["/p/a"] ++ "/p/bad" :: ["/p/c"]) = (["/p/a"] ++ ["/p/bad"], Except.error "x")
    ∧ mainExitCode (buildAllPackages
        (fun d => if d == "/p/bad" then Except.error "x" else Except.ok ())
        (["/p/a"] ++ "/p/bad" :: ["/p/c"])).2 = 1 := by
  refine ⟨?_, ?_, ?_⟩
  · exact c8_sequential_fail_fast.1
      (fun f => if f == "umd" then Except.error "boom" else Except.ok ())
      "@lx/components" ["es", "cjs"] [] "umd" "boom"
      (by intro g hg; fin_cases hg <;> rfl) rfl
  · exact (c8_sequential_fail_fast.2
      (fun d => if d == "/p/bad" then Except.error "x" else Except.ok ())
      ["/p/a"] ["/p/c"] "/p/bad" "x"
      (by intro r hr; fin_cases hr; rfl) rfl).1
  · exact (c8_sequential_fail_fast.2
      (fun d => if d == "/p/bad" then Except.error "x" else Except.ok ())
      ["/p/a"] ["/p/c"] "/p/bad" "x"
      (by intro r hr; fin_cases hr; rfl) rfl).2

theorem count_eq_zero_filter {c : Char} {l : List Char} (h : l.count c = 0) :
    l.filter (fun x => !(x == c)) = l := by
  apply List.filter_eq_self.mpr
  intro a ha
  have hc : c ∉ l := List.count_eq_zero.mp h
  have hne : a ≠ c := fun e => hc (e ▸ ha)
  simp [hne]

theorem replaceFirstCharAux_of_not_mem {c : Char} (r : List Char) {l : List Char}
    (h : c ∉ l) : replaceFirstCharAux c r l = l := by
  induction l with
  | nil => rfl
  | cons x xs ih =>
    have hx : x ≠ c := fun e => h (by simp [e])
    have hxs : c ∉ xs := fun hm => h (List.mem_cons_of_mem _ hm)
    simp [replaceFirstCharAux, hx, ih hxs]

theorem replaceFirstCharAux_erase {c : Char} {l : List Char} (h : l.count c ≤ 1) :
    replaceFirstCharAux c [] l = l.filter (fun x => !(x == c)) := by
  induction l with
  | nil => rfl
  | cons x xs ih =>
    by_cases hx : x = c
    · subst hx
      have hcount : xs.count x = 0 := by
        rw [List.count_cons_self] at h
        omega
      simp [replaceFirstCharAux, count_eq_zero_filter hcount]
    · have h2 : xs.count c ≤ 1 := by
        rw [List.count_cons] at h
        omega
      have hbne : (x == c) = false := by simp [hx]
      simp [replaceFirstCharAux, hx, List.filter_cons, hbne, ih h2]

theorem splitCharAux_not_mem (c : Char) (l : List Char) :
    ∀ ys ∈ splitCharAux c l, c ∉ ys := by
  induction l with
  | nil =>
    intro ys hys
    simp [splitCharAux] at hys
    simp [hys]
  | cons x xs ih =>
    intro ys hys
    cases hsp : splitCharAux c xs with
    | nil =>
      have hys2 : ys ∈ [([] : List Char)] := by
        simpa [splitCharAux, hsp] using hys
      simp at hys2
      simp [hys2]
    | cons ys' rest =>
      by_cases hx : x = c
      · have hys2 : ys ∈ ([] : List Char) :: ys' :: rest := by
          simpa [splitCharAux, hsp, hx] using hys
        rcases List.mem_cons.mp hys2 with rfl | h2
        · simp
        · exact ih ys (hsp ▸ h2)
      · have hys2 : ys ∈ (x :: ys') :: rest := by
          simpa [splitCharAux, hsp, hx] using hys
        rcases List.mem_cons.mp hys2 with rfl | h2
        · intro hmem
          rcases List.mem_cons.mp hmem with rfl | h3
          · exact hx rfl
          · exact ih ys' (hsp ▸ List.mem_cons_self _ _) h3
        · exact ih ys (hsp ▸ List.mem_cons_of_mem _ h2)

theorem shortNameOf_no_slash (pkgName : String) : '/' ∉ (shortNameOf pkgName).data := by
  unfold shortNameOf
  by_cases h : strContainsChar pkgName '/' = true
  · rw [if_pos h]
    have key : ∀ s ∈ jsSplitChar pkgName '/', '/' ∉ s.data := by
      intro s hs
      rcases List.mem_map.mp hs with ⟨ys, hys, rfl⟩
      exact splitCharAux_not_mem '/' pkgName.data ys hys
    cases hsp : jsSplitChar pkgName '/' with
    | nil => simp
    | cons a as =>
      have hmem : (a :: as).getLastD "" ∈ a :: as := by
        rw [List.getLastD_cons]
        exact List.getLastD_mem_cons as a
      exact key _ (hsp ▸ hmem)
  · rw [if_neg h]
    intro hmem
    exact h (by simpa [strContainsChar] using hmem)

theorem normalizeOutName_eq_strip (s : String) (h1 : s.data.count '@' ≤ 1)
    (h2 : '/' ∉ s.data) : normalizeOutName s = stripScopeAndSep s := by
  unfold normalizeOutName replaceFirstChar stripScopeAndSep
  have hempty : ("" : String).data = ([] : List Char) := rfl
  rw [hempty, replaceFirstCharAux_erase h1]
  have hns : '/' ∉ s.data.filter (fun x => !(x == '@')) :=
    fun hm => h2 (List.mem_of_mem_filter hm)
  rw [replaceFirstCharAux_of_not_mem _ hns]
  congr 1
  apply List.filter_congr
  intro a ha
  have hne : a ≠ '/' := fun e => h2 (e ▸ ha)
  simp [hne]

/-- C9: in the assembled per-format build options, the display name is the
final `/`-segment of the package name (the whole name when it has no `/`),
the output directory joins the output root with the short name stripped of
its `@` scope marker (and of `/` separators, which the short name cannot
contain), the emitted file for the requested format is named
`<shortName>.<format>.js`, and the single requested format is passed. -/
theorem c9_output_naming (config : BuildConfig) (entry pkgName outRoot : String)
    (externals : List String) (format : String) :
    (strContainsChar pkgName '/' = true →
      (assembleBuildOptions config entry pkgName outRoot externals format).lib.name =
        (jsSplitChar pkgName '/').getLastD "")
    ∧ (strContainsChar pkgName '/' = false →
      (assembleBuildOptions config entry pkgName outRoot externals format).lib.name =
        pkgName)
    ∧ ((shortNameOf pkgName).data.count '@' ≤ 1 →
      (assembleBuildOptions config entry pkgName outRoot externals format).outDir =
        joinPath outRoot (stripScopeAndSep (shortNameOf pkgName)))
    ∧ (assembleBuildOptions config entry pkgName outRoot externals format).lib.fileNameFor
        format = shortNameOf pkgName ++ "." ++ format ++ ".js"
    ∧ (assembleBuildOptions config entry pkgName outRoot externals
        format).lib.formats = [format] := by
  refine ⟨?_, ?_, ?_, ?_, rfl⟩
  · intro h
    simp [assembleBuildOptions, shortNameOf, h]
  · intro h
    simp [assembleBuildOptions, shortNameOf, h]
  · intro h
    have h2 := shortNameOf_no_slash pkgName
    simp only [assembleBuildOptions]
    rw [normalizeOutName_eq_strip _ h h2]
  · simp [assembleBuildOptions, String.append_assoc]

/-- C9 witness: for `@lx/components` the display name is the final segment
`components` and the output directory is `dist/components`. -/
theorem c9_witness :
    (assembleBuildOptions defaultConfig "/e" "@lx/components" "dist" [] "es").outDir =
      joinPath "dist" (stripScopeAndSep (shortNameOf "@lx/components"))
    ∧ (assembleBuildOptions defaultConfig "/e" "@lx/components" "dist" [] "es").lib.name =
      (jsSplitChar "@lx/components" '/').getLastD "" :=
  ⟨(c9_output_naming defaultConfig "/e" "@lx/components" "dist" [] "es").2.2.1 (by decide),
   (c9_output_naming defaultConfig "/e" "@lx/components" "dist" [] "es").1 (by decide)⟩

/-- C6 witness: `lodash` (unscoped) is externalized, `@lx/utils` is not. -/
theorem c6_witness :
    extApply defaultConfig.external "lodash" = true
    ∧ extApply defaultConfig.external "@lx/utils" = false :=
  ⟨(c6_default_external_predicate "lodash").2.1 (by decide),
   (c6_default_external_predicate "@lx/utils").2.2 (by decide)⟩

end LxBuild

namespace LxUtils

mutual
theorem deepClone_counter_le : ∀ (v : JSVal) (n : Nat), n ≤ (deepClone v n).2
  | .vnull, _ => Nat.le_refl _
  | .vundef, _ => Nat.le_refl _
  | .vbool _, _ => Nat.le_refl _
  | .vnum _, _ => Nat.le_refl _
  | .vstr _, _ => Nat.le_refl _
  | .vdate _ _, n => Nat.le_succ n
  | .varr _ es, n => by
    have h := deepCloneList_counter_le es (n + 1)
    simp only [deepClone]
    omega
  | .vobj _ fs, n => by
    have h := deepCloneFields_counter_le fs (n + 1)
    simp only [deepClone]
    omega

theorem deepCloneList_counter_le : ∀ (vs : JSList) (n : Nat), n ≤ (deepCloneList vs n).2
  | .nil, _ => Nat.le_refl _
  | .cons v vs, n => by
    have h1 := deepClone_counter_le v n
    have h2 := deepCloneList_counter_le vs (deepClone v n).2
    simp only [deepCloneList]
    omega

theorem deepCloneFields_counter_le : ∀ (fs : JSFields) (n : Nat), n ≤ (deepCloneFields fs n).2
  | .nil, _ => Nat.le_refl _
  | .cons _ v fs, n => by
    have h1 := deepClone_counter_le v n
    have h2 := deepCloneFields_counter_le fs (deepClone v n).2
    simp only [deepCloneFields]
    omega
end

mutual
theorem deepClone_ids_ge : ∀ (v : JSVal) (n i : Nat), i ∈ idsOf (deepClone v n).1 → n ≤ i
  | .vnull, n, i => by simp [deepClone, idsOf]
  | .vundef, n, i => by simp [deepClone, idsOf]
  | .vbool _, n, i => by simp [deepClone, idsOf]
  | .vnum _, n, i => by simp [deepClone, idsOf]
  | .vstr _, n, i => by simp [deepClone, idsOf]
  | .vdate _ _, n, i => by
    intro h
    simp [deepClone, idsOf] at h
    omega
  | .varr _ es, n, i => by
    intro h
    simp only [deepClone, idsOf, List.mem_cons] at h
    rcases h with rfl | h2
    · exact Nat.le_refl _
    · have := deepCloneList_ids_ge es (n + 1) i h2
      omega
  | .vobj _ fs, n, i => by
    intro h
    simp only [deepClone, idsOf, List.mem_cons] at h
    rcases h with rfl | h2
    · exact Nat.le_refl _
    · have := deepCloneFields_ids_ge fs (n + 1) i h2
      omega

theorem deepCloneList_ids_ge : ∀ (vs : JSList) (n i : Nat),
    i ∈ idsOfList (deepCloneList vs n).1 → n ≤ i
  | .nil, n, i => by simp [deepCloneList, idsOfList]
  | .cons v vs, n, i => by
    intro h
    simp only [deepCloneList, idsOfList, List.mem_append] at h
    rcases h with h1 | h2
    · exact deepClone_ids_ge v n i h1
    · have hc := deepClone_counter_le v n
      have := deepCloneList_ids_ge vs (deepClone v n).2 i h2
      omega

theorem deepCloneFields_ids_ge : ∀ (fs : JSFields) (n i : Nat),
    i ∈ idsOfFields (deepCloneFields fs n).1 → n ≤ i
  | .nil, n, i => by simp [deepCloneFields, idsOfFields]
  | .cons _ v fs, n, i => by
    intro h
    simp only [deepCloneFields, idsOfFields, List.mem_append] at h
    rcases h with h1 | h2
    · exact deepClone_ids_ge v n i h1
    · have hc := deepClone_counter_le v n
      have := deepCloneFields_ids_ge fs (deepClone v n).2 i h2
      omega
end

mutual
theorem eraseIds_deepClone : ∀ (v : JSVal) (n : Nat),
    eraseIds (deepClone v n).1 = eraseIds v
  | .vnull, _ => rfl
  | .vundef, _ => rfl
  | .vbool _, _ => rfl
  | .vnum _, _ => rfl
  | .vstr _, _ => rfl
  | .vdate _ _, _ => rfl
  | .varr _ es, n => by
    simp only [deepClone, eraseIds]
    rw [eraseIdsList_deepClone es (n + 1)]
  | .vobj _ fs, n => by
    simp only [deepClone, eraseIds]
    rw [eraseIdsFields_deepClone fs (n + 1)]

theorem eraseIdsList_deepClone : ∀ (vs : JSList) (n : Nat),
    eraseIdsList (deepCloneList vs n).1 = eraseIdsList vs
  | .nil, _ => rfl
  | .cons v vs, n => by
    simp only [deepCloneList, eraseIdsList]
    rw [eraseIds_deepClone v n, eraseIdsList_deepClone vs (deepClone v n).2]

theorem eraseIdsFields_deepClone : ∀ (fs : JSFields) (n : Nat),
    eraseIdsFields (deepCloneFields fs n).1 = eraseIdsFields fs
  | .nil, _ => rfl
  | .cons k v fs, n => by
    simp only [deepCloneFields, eraseIdsFields]
    rw [eraseIds_deepClone v n, eraseIdsFields_deepClone fs (deepClone v n).2]
end

/-- C10: `deepClone` returns primitives (null/undefined/booleans/numbers/
strings) unchanged with no allocation; a `Date` becomes a freshly allocated
`Date` with the same timestamp; the clone is structurally equal to the input
(equal after erasing reference identities); every identity in the clone is
fresh (at or above the allocation counter); hence when the input's identities
all lie below the counter the clone shares no reference with the input. -/
theorem c10_deep_clone (v : JSVal) (n : Nat) :
    (v.isPrimitive = true → deepClone v n = (v, n))
    ∧ (∀ i t, v = JSVal.vdate i t → (deepClone v n).1 = JSVal.vdate n t)
    ∧ eraseIds (deepClone v n).1 = eraseIds v
    ∧ (∀ i, i ∈ idsOf (deepClone v n).1 → n ≤ i)
    ∧ ((∀ i, i ∈ idsOf v → i < n) →
        ∀ i, i ∈ idsOf (deepClone v n).1 → i ∉ idsOf v) := by
  refine ⟨?_, ?_, eraseIds_deepClone v n, fun i => deepClone_ids_ge v n i, ?_⟩
  · intro h
    cases v <;> simp_all [JSVal.isPrimitive, deepClone]
  · rintro i t rfl
    rfl
  · intro hin i hi hmem
    have h1 := deepClone_ids_ge v n i hi
    have h2 := hin i hmem
    omega

/-- C10 witness: a string is returned unchanged; a composite object's clone
(from counter 10) is structurally equal to the input and reuses none of the
input's identities. -/
theorem c10_witness :
    deepClone (JSVal.vstr "x") 3 = (JSVal.vstr "x", 3)
    ∧ eraseIds (deepClone (JSVal.vobj 0 (JSFields.cons "d" (JSVal.vdate 1 5)
        (JSFields.cons "a" (JSVal.varr 2 (JSList.cons (JSVal.vnum 3)
          (JSList.cons JSVal.vnull JSList.nil))) JSFields.nil))) 10).1 =
      eraseIds (JSVal.vobj 0 (JSFields.cons "d" (JSVal.vdate 1 5)
        (JSFields.cons "a" (JSVal.varr 2 (JSList.cons (JSVal.vnum 3)
          (JSList.cons JSVal.vnull JSList.nil))) JSFields.nil)))
    ∧ (10 : Nat) ∉ idsOf (JSVal.vobj 0 (JSFields.cons "d" (JSVal.vdate 1 5)
        (JSFields.cons "a" (JSVal.varr 2 (JSList.cons (JSVal.vnum 3)
          (JSList.cons JSVal.vnull JSList.nil))) JSFields.nil))) :=
  ⟨(c10_deep_clone (JSVal.vstr "x") 3).1 (by decide),
   (c10_deep_clone (JSVal.vobj 0 (JSFields.cons "d" (JSVal.vdate 1 5)
        (JSFields.cons "a" (JSVal.varr 2 (JSList.cons (JSVal.vnum 3)
          (JSList.cons JSVal.vnull JSList.nil))) JSFields.nil))) 10).2.2.1,
   (c10_deep_clone (JSVal.vobj 0 (JSFields.cons "d" (JSVal.vdate 1 5)
        (JSFields.cons "a" (JSVal.varr 2 (JSList.cons (JSVal.vnum 3)
          (JSList.cons JSVal.vnull JSList.nil))) JSFields.nil))) 10).2.2.2.2
     (by decide) 10 (by decide)⟩

end LxUtils
